import Mathlib

/-!
Verification of the parameter-resolution engine of `fv-alfred`
(`src/create-linear-issue-logic.js` and its caller `src/create-linear-issue-mutation.js`).

The JavaScript source is shallowly embedded as executable Lean definitions:

* JS strings are `String`, compared and transformed through their `List Char`
  data (the strings involved are ASCII, where JS UTF-16 code-unit semantics,
  `toLowerCase`, and `.length` coincide with the `Char`-list model);
* `null`/`undefined` fields are `Option`; JS truthiness of a string is
  "`≠ ""`" and of a number is "`≠ 0`", encoded by explicit `jsTruthy…`/
  `jsFalsy…` helpers at each place the source relies on it;
* `Array.prototype.sort(cmp)` (a stable sort in modern engines) is modelled by
  a stable insertion sort `jsSort` over the boolean relation `cmp a b ≤ 0`;
* `String.prototype.localeCompare` is modelled as code-point comparison, which
  agrees with locale collation on the same-case ASCII strings this program
  compares;
* `Date.now()` is an explicit `now : Nat` argument, and file-system reads and
  writes are explicit values (arguments / returned records).
-/

/-- The JS `\s` class restricted to the code points that occur in practice:
ASCII whitespace (tab, LF, VT, FF, CR, space) and NBSP. -/
def jsSpace (c : Char) : Bool :=
  c == ' ' || c == '\t' || c == '\n' || c == '\r' ||
  c == Char.ofNat 11 || c == Char.ofNat 12 || c == Char.ofNat 160

/-- `String.prototype.toLowerCase` on the ASCII range. -/
def jsToLower (c : Char) : Char :=
  if 65 ≤ c.toNat ∧ c.toNat ≤ 90 then Char.ofNat (c.toNat + 32) else c

/-- `x.replace(/[\s_-]/g, "").toLowerCase()` on the character list (logic.js line 28). -/
def sanitiseList (l : List Char) : List Char :=
  (l.filter (fun c => !(jsSpace c || c == '_' || c == '-'))).map jsToLower

/-- `sanitise` (logic.js lines 27-29). -/
def sanitise (x : String) : String :=
  ⟨sanitiseList x.data⟩

/-- `a.startsWith(b)` on character lists. -/
def listStartsWith : List Char → List Char → Bool
  | _, [] => true
  | [], _ :: _ => false
  | a :: as, b :: bs => a == b && listStartsWith as bs

/-- `fuzzyMatch` (logic.js lines 31-33): `sanitise(string).startsWith(sanitise(substr))`. -/
def fuzzyMatch (string substr : String) : Bool :=
  listStartsWith (sanitiseList string.data) (sanitiseList substr.data)

/-- JS `<` on strings: lexicographic comparison of code units. -/
def charListLt : List Char → List Char → Bool
  | _, [] => false
  | [], _ :: _ => true
  | a :: as, b :: bs =>
    decide (a.toNat < b.toNat) || (decide (a.toNat = b.toNat) && charListLt as bs)

/-- `a.localeCompare(b)` modelled as code-point comparison (-1 / 0 / 1). -/
def localeCompare (a b : String) : Int :=
  if charListLt a.data b.data then -1
  else if charListLt b.data a.data then 1
  else 0

/-- `word.substring(1)` (the strings here are ASCII, so dropping one
character agrees with dropping one UTF-16 unit). -/
def substringFrom1 (w : String) : String :=
  ⟨w.data.drop 1⟩

/-- Stable insertion into a sorted list: the new element `x` goes before the
first `y` it compares `le x y`; ties keep `x` (the earlier element) first. -/
def jsSortInsert (le : α → α → Bool) (x : α) : List α → List α
  | [] => [x]
  | y :: ys => if le x y then x :: y :: ys else y :: jsSortInsert le x ys

/-- `Array.prototype.sort(cmp)` with `le a b := cmp a b ≤ 0`, modelled as a
stable insertion sort (any stable sort computes the same list for a
consistent comparator, which the comparators of this program are). -/
def jsSort (le : α → α → Bool) : List α → List α
  | [] => []
  | x :: xs => jsSortInsert le x (jsSort le xs)

/-- One entry of the per-string match record built inside `findBestMatch`
(logic.js lines 51-56). -/
structure MatchInfo where
  original : String
  sanitized : String
  isExact : Bool
  isFuzzy : Bool
deriving DecidableEq

/-- One entry of `candidatesWithMatches` (logic.js lines 58-63). -/
structure Cand (α : Type) where
  item : α
  /-- the source's `matches` field (`matches` is a Lean keyword) -/
  matchList : List MatchInfo
  hasExactMatch : Bool
  shortestMatchLength : Nat

/-- Record for one matchable string (logic.js lines 51-56). -/
def mkMatchInfo (searchTerm str : String) : MatchInfo :=
  { original := str
    sanitized := sanitise str
    isExact := sanitise str == sanitise searchTerm
    isFuzzy := fuzzyMatch str searchTerm }

/-- `Math.min(...lengths)` for the (always non-empty, see the filter on
logic.js line 65) list of qualifying match lengths.  `Math.min()` of an empty
list is `Infinity` in JS; the `0` returned here is never consulted because
candidates with no qualifying match are filtered out before sorting. -/
def minLenD : List Nat → Nat
  | [] => 0
  | [n] => n
  | n :: ns => min n (minLenD ns)

/-- The candidate record built for `item` (logic.js lines 49-64). -/
def mkCand (word : String) (f : α → List String) (item : α) : Cand α :=
  let searchTerm := substringFrom1 word
  let matchableStrings := (f item).filter (fun s => !(s == ""))
  let ms := matchableStrings.map (mkMatchInfo searchTerm)
  let qual := ms.filter (fun m => m.isExact || m.isFuzzy)
  { item := item
    matchList := qual
    hasExactMatch := ms.any (·.isExact)
    shortestMatchLength := minLenD (qual.map (fun m => m.original.data.length)) }

/-- `candidatesWithMatches` (logic.js lines 48-65). -/
def candidatesFor (word : String) (coll : List α) (f : α → List String) : List (Cand α) :=
  (coll.map (mkCand word f)).filter (fun c => !c.matchList.isEmpty)

/-- `getMatchableStrings(item)[0] || ''` (logic.js lines 82-83). -/
def primaryFor (f : α → List String) (x : α) : String :=
  match f x with
  | [] => ""
  | s :: _ => s

/-- The sort comparator of `findBestMatch` (logic.js lines 72-84). -/
def candCmp (f : α → List String) (a b : Cand α) : Int :=
  if a.hasExactMatch && !b.hasExactMatch then -1
  else if !a.hasExactMatch && b.hasExactMatch then 1
  else if (a.shortestMatchLength : Int) - (b.shortestMatchLength : Int) ≠ 0 then
    (a.shortestMatchLength : Int) - (b.shortestMatchLength : Int)
  else localeCompare (primaryFor f a.item) (primaryFor f b.item)

/-- "`a` sorts no later than `b`" under the comparator. -/
def candLe (f : α → List String) (a b : Cand α) : Bool :=
  decide (candCmp f a b ≤ 0)

/-- `findBestMatch` (logic.js lines 41-86).  `!word` on a string means
`word = ""`; the `!collection` guard cannot fire at any call site (all pass
arrays) and a `List` is never null. -/
def findBestMatch (word : String) (coll : List α) (f : α → List String) : Option α :=
  if word = "" then none
  else
    match jsSort (candLe f) (candidatesFor word coll f) with
    | [] => none
    | c :: _ => some c.item

/-- An item qualifies when it contributes a candidate (logic.js line 65). -/
def qualifies (word : String) (f : α → List String) (x : α) : Bool :=
  !(mkCand word f x).matchList.isEmpty

/-- Whether some matchable string of `x` is an exact normalized match. -/
def hasExactFor (word : String) (f : α → List String) (x : α) : Bool :=
  (mkCand word f x).hasExactMatch

/-- The length of the shortest qualifying matchable string of `x`. -/
def shortestFor (word : String) (f : α → List String) (x : α) : Nat :=
  (mkCand word f x).shortestMatchLength

/-- Rank used by the comparator: exact-match candidates first. -/
def candRank (c : Cand α) : Nat :=
  if c.hasExactMatch then 0 else 1

/-- Whether `x` has at least one truthy matchable string. -/
def hasTruthyStr (f : α → List String) (x : α) : Bool :=
  (f x).any (fun s => !(s == ""))

/-- Whether some truthy matchable string of `x` sanitises to the empty
string (such a string is an exact match for an empty search term). -/
def hasEmptySan (f : α → List String) (x : α) : Bool :=
  ((f x).filter (fun s => !(s == ""))).any (fun s => sanitise s == "")

/-- The length of the shortest truthy matchable string of `x`. -/
def shortestLenAll (f : α → List String) (x : α) : Nat :=
  minLenD (((f x).filter (fun s => !(s == ""))).map (fun s => s.data.length))

/-- A team member node (`members.nodes` entries of the metadata query). -/
structure TeamMember where
  id : String
  isMe : Bool
deriving DecidableEq

/-- A team entity; `createdAt` is milliseconds since epoch (the JS code only
compares these values through `new Date(...)` subtraction). -/
structure Team where
  id : String
  key : Option String := none
  name : String
  createdAt : Nat := 0
  members : List TeamMember := []
deriving DecidableEq

/-- An owning-team reference of a project (`project.teams.nodes` entries). -/
structure ProjectTeamRef where
  id : String
deriving DecidableEq

/-- A project entity.  An absent `teams.nodes` behaves like `[]` at every use
site (`?.some(...)` and `?.length > 0` are both falsy), so it is a plain list. -/
structure Project where
  id : String
  name : String
  teams : List ProjectTeamRef := []
deriving DecidableEq

/-- A user entity. -/
structure User where
  id : String
  name : String
  displayName : Option String := none
  email : Option String := none
  isMe : Bool := false
deriving DecidableEq

/-- One fixed priority entry (logic.js lines 6-24). -/
structure Priority where
  label : String
  id : Nat
deriving DecidableEq

/-- The hardcoded priority table (logic.js lines 6-24). -/
def priorities : List Priority :=
  [⟨"No priority", 0⟩,
   ⟨"urgent", 1⟩, ⟨"p0", 1⟩, ⟨"1", 1⟩, ⟨"u", 1⟩,
   ⟨"high", 2⟩, ⟨"p1", 2⟩, ⟨"2", 2⟩, ⟨"h", 2⟩,
   ⟨"medium", 3⟩, ⟨"p2", 3⟩, ⟨"3", 3⟩, ⟨"m", 3⟩,
   ⟨"low", 4⟩, ⟨"p3", 4⟩, ⟨"4", 4⟩, ⟨"l", 4⟩]

/-- `user.email?.split("@")[0]`: the part before the first `@` (the whole
string when there is no `@`). -/
def emailLocal (e : String) : String :=
  ⟨e.data.takeWhile (fun c => !(c == '@'))⟩

/-- `a || b` for a possibly-absent string `a` (used for
`user.displayName || user.name`). -/
def jsOrStr (a : Option String) (b : String) : String :=
  match a with
  | some s => if s == "" then b else s
  | none => b

/-- Matchable strings of a team: `[team.name, team.key]` (logic.js line 329).
An absent key becomes `""`, which the `filter(Boolean)` inside
`findBestMatch` discards exactly like JS discards `undefined`. -/
def teamMatchables (t : Team) : List String :=
  [t.name, t.key.getD ""]

/-- Matchable strings of a user (logic.js lines 331-335). -/
def userMatchables (u : User) : List String :=
  [u.name, u.displayName.getD "", (u.email.map emailLocal).getD ""]

/-- Matchable strings of a project (logic.js line 327). -/
def projectMatchables (p : Project) : List String :=
  [p.name]

/-- Matchable strings of a priority (logic.js line 337). -/
def priorityMatchables (p : Priority) : List String :=
  [p.label]

/-- The persisted preference snapshot: the last fetched metadata plus the
last explicit choice and per-field timestamp.  Arrays that are absent in the
JSON behave like `[]` at every use site of this development (`?.length`,
`?.filter`, `?.find` on `undefined` are falsy / no-match), so lists are not
wrapped in `Option`. -/
structure Prefs where
  teams : List Team := []
  projects : List Project := []
  users : List User := []
  teamsChoice : Option String := none
  projectsChoice : Option String := none
  usersChoice : Option String := none
  prioritiesChoice : Option Nat := none
  teamsChoiceTimestamp : Option Nat := none
  projectsChoiceTimestamp : Option Nat := none
  usersChoiceTimestamp : Option Nat := none
  prioritiesChoiceTimestamp : Option Nat := none
deriving DecidableEq

/-- The empty preference set (`{}`). -/
def emptyPrefs : Prefs := {}

/-- JS truthiness of a nullable string (`undefined`/`null`/`""` are falsy). -/
def jsTruthyStr : Option String → Bool
  | none => false
  | some s => !(s == "")

/-- JS truthiness of a nullable number (`undefined`/`null`/`0` are falsy). -/
def jsTruthyNat : Option Nat → Bool
  | none => false
  | some n => !(n == 0)

/-- `x || null` for a nullable string. -/
def orNullStr (o : Option String) : Option String :=
  if jsTruthyStr o then o else none

/-- `x || null` for a nullable number. -/
def orNullNat (o : Option Nat) : Option Nat :=
  if jsTruthyNat o then o else none

/-- `writePrefs` (logic.js lines 223-261): builds `prefsWithTimestamps` from
its argument alone and writes it; the written record is also returned.
`Date.now()` is the `now` argument; `isDryRun` only changes JSON indentation
and is dropped. -/
def writePrefs (prefs : Prefs) (now : Nat) : Prefs :=
  { prefs with
    teamsChoice := orNullStr prefs.teamsChoice
    projectsChoice := orNullStr prefs.projectsChoice
    usersChoice := orNullStr prefs.usersChoice
    prioritiesChoice := orNullNat prefs.prioritiesChoice
    teamsChoiceTimestamp :=
      if jsTruthyStr prefs.teamsChoice then some now else orNullNat prefs.teamsChoiceTimestamp
    projectsChoiceTimestamp :=
      if jsTruthyStr prefs.projectsChoice then some now else orNullNat prefs.projectsChoiceTimestamp
    usersChoiceTimestamp :=
      if jsTruthyStr prefs.usersChoice then some now else orNullNat prefs.usersChoiceTimestamp
    prioritiesChoiceTimestamp :=
      if jsTruthyNat prefs.prioritiesChoice then some now else orNullNat prefs.prioritiesChoiceTimestamp }

/-- The explicit choices of one run (`explicitChoices`, logic.js lines 453-458). -/
structure ExplicitChoices where
  teamId : Option String := none
  projectId : Option String := none
  assigneeId : Option String := none
  priorityId : Option Nat := none
deriving DecidableEq

/-- The preference write performed by `main` (mutation.js lines 131-140): the
previous snapshot `metadata` is spread and all four choice fields are
overridden with the run's explicit choices, then `writePrefs` is applied. -/
def writeRunPrefs (metadata : Prefs) (explicit : ExplicitChoices) (now : Nat) : Prefs :=
  writePrefs
    { metadata with
      teamsChoice := explicit.teamId
      projectsChoice := explicit.projectId
      usersChoice := explicit.assigneeId
      prioritiesChoice := explicit.priorityId }
    now

/-- `results` of `processParameters` (logic.js lines 278-288). -/
structure ResolutionResult where
  teamId : Option String := none
  projectId : Option String := none
  assigneeId : Option String := none
  priorityId : Option Nat := none
  teamName : Option String := none
  projectName : Option String := none
  assigneeName : Option String := none
  priorityLabel : Option String := none
  unmatched : List String := []
deriving DecidableEq

/-- The reverse scan of one resolution pass (logic.js lines 316-345): try the
words from last to first, and on the first hit return the match together with
the unmatched pool with that word spliced out. -/
def findLastMatch (f : String → Option β) : List String → Option (β × List String)
  | [] => none
  | w :: ws =>
    match findLastMatch f ws with
    | some (b, rest) => some (b, w :: rest)
    | none =>
      match f w with
      | some b => some (b, ws)
      | none => none

/-- `processParameters` (logic.js lines 277-349): one pass per kind in the
fixed order priorities, users, teams, projects; each pass scans the remaining
unmatched words in reverse and consumes at most one of them.  The projects
pass filters candidates by the team resolved so far (logic.js lines 322-327). -/
def processParameters (paramWords : List String) (metadata : Prefs) : ResolutionResult :=
  let r0 : ResolutionResult := { unmatched := paramWords }
  let r1 :=
    match findLastMatch (fun w => findBestMatch w priorities priorityMatchables) r0.unmatched with
    | some (p, rest) =>
      { r0 with priorityId := some p.id, priorityLabel := some p.label, unmatched := rest }
    | none => r0
  let r2 :=
    match findLastMatch (fun w => findBestMatch w metadata.users userMatchables) r1.unmatched with
    | some (u, rest) =>
      { r1 with assigneeId := some u.id, assigneeName := some (jsOrStr u.displayName u.name),
                unmatched := rest }
    | none => r1
  let r3 :=
    match findLastMatch (fun w => findBestMatch w metadata.teams teamMatchables) r2.unmatched with
    | some (t, rest) =>
      { r2 with teamId := some t.id, teamName := some t.name, unmatched := rest }
    | none => r2
  let filteredProjects := metadata.projects.filter (fun proj =>
    match r3.teamId with
    | none => true
    | some tid => proj.teams.any (fun t => t.id == tid))
  let r4 :=
    match findLastMatch (fun w => findBestMatch w filteredProjects projectMatchables) r3.unmatched with
    | some (p, rest) =>
      { r3 with projectId := some p.id, projectName := some p.name, unmatched := rest }
    | none => r3
  r4

/-- The leading-command strip `input.replace(/^\s*ln\s*/, "")` (logic.js
line 265): when the input starts with optional whitespace followed by the
letters `ln`, that prefix and any whitespace after it are removed; otherwise
the input is unchanged. -/
def stripLnCommand (l : List Char) : List Char :=
  match l.dropWhile jsSpace with
  | 'l' :: 'n' :: rest => rest.dropWhile jsSpace
  | _ => l

/-- `s.split(" ")` (split on every single space character; consecutive
separators yield empty pieces, and the empty string yields `[""]`). -/
def splitOnSpace : List Char → List Char → List (List Char)
  | [], acc => [acc.reverse]
  | c :: cs, acc =>
    if c == ' ' then acc.reverse :: splitOnSpace cs []
    else splitOnSpace cs (c :: acc)

/-- `word.startsWith("-")`. -/
def startsWithDash (w : String) : Bool :=
  match w.data with
  | '-' :: _ => true
  | _ => false

/-- Parsed input (logic.js lines 264-274). -/
structure ParsedInput where
  paramWords : List String
  titleWords : List String
deriving DecidableEq

/-- `parseInput` (logic.js lines 264-274). -/
def parseInput (input : String) : ParsedInput :=
  let inputWords := (splitOnSpace (stripLnCommand input.data) []).map (fun l => String.mk l)
  { paramWords := inputWords.filter (fun w => startsWithDash w && decide (w.data.length > 1))
    titleWords := inputWords.filter (fun w => !startsWithDash w || decide (w.data.length = 1)) }

/-- `title.trim()`: strip whitespace from both ends. -/
def jsTrim (l : List Char) : List Char :=
  ((l.dropWhile jsSpace).reverse.dropWhile jsSpace).reverse

/-- `s.split(/\s+/)`: maximal whitespace runs are single separators; a
leading (resp. trailing) run contributes a leading (trailing) empty piece,
and the empty string yields `[""]`.  Defined by structural recursion on the
right: a space character either extends the separator run that already starts
`cs` or closes a new boundary. -/
def splitWsRuns : List Char → List (List Char)
  | [] => [[]]
  | c :: cs =>
    let r := splitWsRuns cs
    if jsSpace c then
      match cs with
      | c2 :: _ => if jsSpace c2 then r else [] :: r
      | [] => [] :: r
    else
      match r with
      | t :: ts => (c :: t) :: ts
      | [] => [[c]]

/-- The title construction of `processWorkflow` (logic.js lines 464-465):
unmatched parameter words are prepended to the title words, every word is
trimmed, and the words are joined with single spaces. -/
def joinSpace : List String → String
  | [] => ""
  | [w] => w
  | w :: ws => w ++ " " ++ joinSpace ws

/-- `titleWords.unshift(...params.unmatched); titleWords.map(w => w.trim()).join(" ")`. -/
def buildTitle (unmatched titleWords : List String) : String :=
  joinSpace ((unmatched ++ titleWords).map (fun w => ⟨jsTrim w.data⟩))

/-- The result of `validateTitle`. -/
structure TitleValidation where
  valid : Bool
  message : Option String
deriving DecidableEq

/-- `validateTitle` (logic.js lines 481-491).  `!title` is `title = ""`;
the single-word test is `title.trim().split(/\s+/).length === 1`. -/
def validateTitle (title : String) : TitleValidation :=
  if title = "" then ⟨false, some "Please provide a title"⟩
  else if (splitWsRuns (jsTrim title.data)).length = 1 then
    ⟨false, some "Please provide a more descriptive title with multiple words"⟩
  else ⟨true, none⟩

/-- JS falsiness of a nullable string id (`null`/`undefined`/`""`). -/
def jsFalsyStr (o : Option String) : Bool :=
  !(jsTruthyStr o)

/-- `defaultTeamID` (logic.js lines 356-358): among the teams whose members
include the current user, the one with the earliest `createdAt`
(`.sort((a, b) => new Date(a.createdAt) - new Date(b.createdAt))[0]?.id`). -/
def defaultTeamIdOf (metadata : Prefs) : Option String :=
  match jsSort (fun a b => decide (a.createdAt ≤ b.createdAt))
      (metadata.teams.filter (fun t => t.members.any (·.isMe))) with
  | [] => none
  | t :: _ => some t.id

/-- Lines 361-372 of logic.js: team/project fallbacks.  Both `== null`
comparisons are strict null/undefined tests, so they are `Option` matches. -/
def applyTeamProjectDefaults (metadata : Prefs) (r : ResolutionResult) : ResolutionResult :=
  match r.teamId, r.projectId with
  | none, none =>
    { r with projectId := metadata.projectsChoice, teamId := metadata.teamsChoice }
  | none, some pid =>
    match metadata.projects.find? (fun p => p.id == pid) with
    | some proj =>
      match proj.teams with
      | t :: _ => { r with teamId := some t.id }
      | [] => { r with teamId := metadata.teamsChoice }
    | none => { r with teamId := metadata.teamsChoice }
  | some _, _ => r

/-- Lines 376-378 of logic.js: `if (!results.teamId && !results.projectId &&
defaultTeamID) results.teamId = defaultTeamID` — note the truthiness tests. -/
def applyMemberDefaultTeam (metadata : Prefs) (r : ResolutionResult) : ResolutionResult :=
  if jsFalsyStr r.teamId && jsFalsyStr r.projectId && jsTruthyStr (defaultTeamIdOf metadata) then
    { r with teamId := defaultTeamIdOf metadata }
  else r

/-- Lines 380-382 of logic.js. -/
def applyAssigneeDefault (metadata : Prefs) (r : ResolutionResult) : ResolutionResult :=
  match r.assigneeId with
  | none => { r with assigneeId := metadata.usersChoice }
  | some _ => r

/-- Lines 384-386 of logic.js. -/
def applyPriorityDefault (metadata : Prefs) (r : ResolutionResult) : ResolutionResult :=
  match r.priorityId with
  | none => { r with priorityId := metadata.prioritiesChoice }
  | some _ => r

/-- Lines 389-392 of logic.js (an array is always truthy, so the
`metadata.teams` conjunct always passes in the list model). -/
def lookupTeamName (metadata : Prefs) (r : ResolutionResult) : ResolutionResult :=
  if jsTruthyStr r.teamId && jsFalsyStr r.teamName then
    match metadata.teams.find? (fun t => some t.id == r.teamId) with
    | some team => { r with teamName := some team.name }
    | none => r
  else r

/-- Lines 394-397 of logic.js. -/
def lookupProjectName (metadata : Prefs) (r : ResolutionResult) : ResolutionResult :=
  if jsTruthyStr r.projectId && jsFalsyStr r.projectName then
    match metadata.projects.find? (fun p => some p.id == r.projectId) with
    | some proj => { r with projectName := some proj.name }
    | none => r
  else r

/-- Lines 399-402 of logic.js. -/
def lookupAssigneeName (metadata : Prefs) (r : ResolutionResult) : ResolutionResult :=
  if jsTruthyStr r.assigneeId && jsFalsyStr r.assigneeName then
    match metadata.users.find? (fun u => some u.id == r.assigneeId) with
    | some u => { r with assigneeName := some (jsOrStr u.displayName u.name) }
    | none => r
  else r

/-- Lines 404-407 of logic.js: `if (results.priorityId !== null)` resolve the
label from the fixed table (overwriting any label already present). -/
def lookupPriorityLabel (r : ResolutionResult) : ResolutionResult :=
  match r.priorityId with
  | some pr =>
    match priorities.find? (fun p => p.id == pr) with
    | some p => { r with priorityLabel := some p.label }
    | none => r
  | none => r

/-- `applyDefaultPreferences` (logic.js lines 352-413), as the composition of
its statement groups in source order; line 410 restores `params.unmatched`. -/
def applyDefaultPreferences (params : ResolutionResult) (metadata : Prefs) : ResolutionResult :=
  let r1 := applyTeamProjectDefaults metadata params
  let r2 := applyMemberDefaultTeam metadata r1
  let r3 := applyAssigneeDefault metadata r2
  let r4 := applyPriorityDefault metadata r3
  let r5 := lookupTeamName metadata r4
  let r6 := lookupProjectName metadata r5
  let r7 := lookupAssigneeName metadata r6
  let r8 := lookupPriorityLabel r7
  { r8 with unmatched := params.unmatched }

/-- How the body of `readPrefs` (logic.js lines 106-141) can go: the
`fs.readFileSync` call throws (missing file or I/O error), `JSON.parse`
throws (empty or corrupt file), the parse produces a falsy value (so
`savedPrefs || {}` yields `{}`), or it produces an object (whose missing
entity arrays lines 131-133 default — absent arrays and `[]` coincide in
this model).  A directory-creation failure is caught by the outer handler
and also yields `{}`; it is covered by `readError`. -/
inductive PrefsReadOutcome where
  | readError : PrefsReadOutcome
  | parseError (contents : String) : PrefsReadOutcome
  | parsedFalsy : PrefsReadOutcome
  | parsedObject (p : Prefs) : PrefsReadOutcome
deriving DecidableEq

/-- `readPrefs` (logic.js lines 106-141) as a function of the read outcome:
every failure path returns the empty preference set instead of propagating. -/
def readPrefs : PrefsReadOutcome → Prefs
  | .parsedObject p => p
  | _ => emptyPrefs

/-- Observable effects of `getUnifiedMetadata`, in program order. -/
inductive UnifiedEffect where
  | fetchSync : UnifiedEffect
  | persist (written : Prefs) : UnifiedEffect
  | backgroundRefresh : UnifiedEffect
deriving DecidableEq

/-- The staleness test of `getUnifiedMetadata` (logic.js lines 421-426):
`readPrefs` always returns an object, so `!metadata` never fires, and
`!metadata.xs?.length` is true exactly when the list is empty (or absent,
which the model identifies with empty). -/
def isStaleMetadata (m : Prefs) : Bool :=
  m.teams.isEmpty || m.projects.isEmpty || m.users.isEmpty

/-- `getUnifiedMetadata` (logic.js lines 416-435) over an explicit cached
snapshot and the result a synchronous `getMetadata` call would produce: on a
stale cache it fetches, persists the fetched result via `writePrefs`, and
returns the fetched result; on a fresh cache it returns the cache and only
fires the non-awaited background refresh (`createLinearIssueCacheAsync`),
whose outcome is not part of the returned value. -/
def getUnifiedMetadata (cached fetchResult : Prefs) (now : Nat) : Prefs × List UnifiedEffect :=
  if isStaleMetadata cached then
    (fetchResult, [UnifiedEffect.fetchSync, UnifiedEffect.persist (writePrefs fetchResult now)])
  else
    (cached, [UnifiedEffect.backgroundRefresh])

/-- Metadata for the pipeline example of C2: one user whose matchable
strings include the alias `u` (their display name); no teams or projects. -/
def c2Metadata : Prefs :=
  { users := [{ id := "user-1", name := "uma", displayName := some "u" }] }

/-- A team whose members include the current user (for the member-default
team computation). -/
def cexTeam : Team :=
  { id := "T1", name := "Team One", createdAt := 5, members := [{ id := "me", isMe := true }] }

/-- Metadata exercising the empty-string-id edge of the default applier: a
project whose id is `""` (and that owns no team), plus a member team. -/
def cexMetadata : Prefs :=
  { teams := [cexTeam], projects := [{ id := "", name := "Empty Project" }] }

/-- A previously persisted snapshot holding an explicit team choice. -/
def c4Prev : Prefs :=
  { teamsChoice := some "team-a", teamsChoiceTimestamp := some 111 }

/-- A fresh (non-stale) cached snapshot: all three entity lists non-empty. -/
def freshPrefs : Prefs :=
  { teams := [cexTeam]
    projects := [{ id := "P1", name := "Proj" }]
    users := [{ id := "U1", name := "user" }] }

/-! ### Order properties of the modelled string comparison -/

theorem char_eq_of_toNat_eq {a b : Char} (h : a.toNat = b.toNat) : a = b := by
  have h2 := congrArg Char.ofNat h
  rwa [Char.ofNat_toNat, Char.ofNat_toNat] at h2

theorem charListLt_irrefl : ∀ l : List Char, charListLt l l = false := by
  intro l
  induction l with
  | nil => rfl
  | cons c cs ih => simp [charListLt, ih]

theorem charListLt_asymm :
    ∀ a b : List Char, charListLt a b = true → charListLt b a = false := by
  intro a
  induction a with
  | nil =>
    intro b h
    cases b with
    | nil => simp [charListLt] at h
    | cons d ds => rfl
  | cons c cs ih =>
    intro b h
    cases b with
    | nil => simp [charListLt] at h
    | cons d ds =>
      rw [Bool.eq_false_iff]
      intro hba
      simp only [charListLt, Bool.or_eq_true, Bool.and_eq_true, decide_eq_true_eq] at h hba
      rcases h with h | ⟨he, hrec⟩ <;> rcases hba with hb | ⟨hbe, hbrec⟩
      · omega
      · omega
      · omega
      · rw [ih ds hrec] at hbrec
        exact Bool.false_ne_true hbrec

theorem charListLt_trans :
    ∀ a b c : List Char, charListLt a b = true → charListLt b c = true →
      charListLt a c = true := by
  intro a
  induction a with
  | nil =>
    intro b c hab hbc
    cases c with
    | nil => cases b <;> simp [charListLt] at hab hbc
    | cons z zs => simp [charListLt]
  | cons x xs ih =>
    intro b c hab hbc
    cases b with
    | nil => simp [charListLt] at hab
    | cons y ys =>
      cases c with
      | nil => simp [charListLt] at hbc
      | cons z zs =>
        simp only [charListLt, Bool.or_eq_true, Bool.and_eq_true, decide_eq_true_eq]
          at hab hbc ⊢
        rcases hab with h1 | ⟨e1, r1⟩ <;> rcases hbc with h2 | ⟨e2, r2⟩
        · left; omega
        · left; omega
        · left; omega
        · right; exact ⟨by omega, ih ys zs r1 r2⟩

theorem charListLt_connex :
    ∀ a b : List Char, charListLt a b = false → charListLt b a = false → a = b := by
  intro a
  induction a with
  | nil =>
    intro b h1 _
    cases b with
    | nil => rfl
    | cons d ds => simp [charListLt] at h1
  | cons x xs ih =>
    intro b h1 h2
    cases b with
    | nil => simp [charListLt] at h2
    | cons y ys =>
      simp only [charListLt, Bool.or_eq_false_iff, Bool.and_eq_false_iff,
        decide_eq_false_iff_not, decide_eq_true_eq] at h1 h2
      obtain ⟨hlt1, h1'⟩ := h1
      obtain ⟨hlt2, h2'⟩ := h2
      have hxy : x.toNat = y.toNat := by omega
      have hchar : x = y := char_eq_of_toNat_eq hxy
      rcases h1' with h1' | h1'
      · omega
      · rcases h2' with h2' | h2'
        · omega
        · rw [hchar, ih ys h1' h2']

theorem charListLt_notlt_trans :
    ∀ a b c : List Char, charListLt b a = false → charListLt c b = false →
      charListLt c a = false := by
  intro a b c h1 h2
  by_cases h : charListLt c a = true
  · by_cases hab : charListLt a b = true
    · have hcb := charListLt_trans c a b h hab
      rw [h2] at hcb
      exact absurd hcb Bool.false_ne_true
    · have hEq : a = b := charListLt_connex a b (Bool.eq_false_iff.mpr hab) h1
      rw [hEq] at h
      rw [h2] at h
      exact absurd h Bool.false_ne_true
  · exact Bool.eq_false_iff.mpr h

theorem localeCompare_le_iff (a b : String) :
    localeCompare a b ≤ 0 ↔ charListLt b.data a.data = false := by
  unfold localeCompare
  by_cases h1 : charListLt a.data b.data = true
  · simp [h1, charListLt_asymm _ _ h1]
  · by_cases h2 : charListLt b.data a.data = true
    · simp [h1, h2]
    · simp [h1, h2, Bool.eq_false_iff]

theorem localeCompare_total (a b : String) :
    localeCompare a b ≤ 0 ∨ localeCompare b a ≤ 0 := by
  rw [localeCompare_le_iff, localeCompare_le_iff]
  by_cases h : charListLt b.data a.data = true
  · right; exact charListLt_asymm _ _ h
  · left; exact Bool.eq_false_iff.mpr h

theorem localeCompare_le_trans (a b c : String)
    (h1 : localeCompare a b ≤ 0) (h2 : localeCompare b c ≤ 0) :
    localeCompare a c ≤ 0 := by
  rw [localeCompare_le_iff] at h1 h2 ⊢
  exact charListLt_notlt_trans a.data b.data c.data h1 h2

/-! ### The comparator of `findBestMatch` is a total preorder -/

theorem intCmp_le_iff (m n : Nat) (lc : Int) :
    (if (m : Int) - (n : Int) ≠ 0 then (m : Int) - (n : Int) else lc) ≤ 0 ↔
      (m < n ∨ (m = n ∧ lc ≤ 0)) := by
  by_cases hd : (m : Int) - (n : Int) ≠ 0
  · rw [if_pos hd]
    constructor
    · intro h; left; omega
    · rintro (h | ⟨h, -⟩)
      · omega
      · omega
  · rw [if_neg hd]
    constructor
    · intro h; right; exact ⟨by omega, h⟩
    · rintro (h | ⟨-, h⟩)
      · omega
      · exact h

theorem candLe_iff (f : α → List String) (a b : Cand α) :
    candLe f a b = true ↔
      (candRank a < candRank b ∨
        (candRank a = candRank b ∧
          (a.shortestMatchLength < b.shortestMatchLength ∨
            (a.shortestMatchLength = b.shortestMatchLength ∧
              localeCompare (primaryFor f a.item) (primaryFor f b.item) ≤ 0)))) := by
  unfold candLe
  rw [decide_eq_true_eq]
  unfold candCmp candRank
  cases ha : a.hasExactMatch <;> cases hb : b.hasExactMatch <;>
    simp only [Bool.not_true, Bool.not_false, Bool.true_and, Bool.and_true, Bool.false_and,
      Bool.and_false, Bool.and_self, if_true, if_false, Bool.false_eq_true, Bool.true_eq_false]
  · rw [intCmp_le_iff]
    simp
  · constructor
    · intro h; norm_num at h
    · rintro (h | ⟨h, -⟩) <;> omega
  · constructor
    · intro _; left; omega
    · intro _; norm_num
  · rw [intCmp_le_iff]
    simp

theorem candLe_total (f : α → List String) (a b : Cand α) :
    candLe f a b = true ∨ candLe f b a = true := by
  rw [candLe_iff, candLe_iff]
  by_cases hr : candRank a = candRank b
  · by_cases hs : a.shortestMatchLength = b.shortestMatchLength
    · rcases localeCompare_total (primaryFor f a.item) (primaryFor f b.item) with h | h
      · left; right; exact ⟨hr, Or.inr ⟨hs, h⟩⟩
      · right; right; exact ⟨hr.symm, Or.inr ⟨hs.symm, h⟩⟩
    · by_cases hlt : a.shortestMatchLength < b.shortestMatchLength
      · left; right; exact ⟨hr, Or.inl hlt⟩
      · right; right; exact ⟨hr.symm, Or.inl (by omega)⟩
  · by_cases hlt : candRank a < candRank b
    · left; left; exact hlt
    · right; left; omega

theorem candLe_trans (f : α → List String) (a b c : Cand α)
    (h1 : candLe f a b = true) (h2 : candLe f b c = true) :
    candLe f a c = true := by
  rw [candLe_iff] at h1 h2 ⊢
  rcases h1 with h1 | ⟨e1, h1⟩
  · rcases h2 with h2 | ⟨e2, h2⟩
    · left; omega
    · left; omega
  · rcases h2 with h2 | ⟨e2, h2⟩
    · left; omega
    · right
      refine ⟨by omega, ?_⟩
      rcases h1 with h1 | ⟨s1, l1⟩
      · rcases h2 with h2 | ⟨s2, l2⟩
        · left; omega
        · left; omega
      · rcases h2 with h2 | ⟨s2, l2⟩
        · left; omega
        · right
          exact ⟨by omega, localeCompare_le_trans _ _ _ l1 l2⟩

/-! ### The stable sort returns a minimal head -/

theorem mem_jsSortInsert (le : α → α → Bool) (x a : α) (l : List α) :
    a ∈ jsSortInsert le x l ↔ a = x ∨ a ∈ l := by
  induction l with
  | nil => simp [jsSortInsert]
  | cons y ys ih =>
    simp only [jsSortInsert]
    split
    · simp [List.mem_cons]
    · simp only [List.mem_cons, ih]
      tauto

theorem mem_jsSort (le : α → α → Bool) (a : α) (l : List α) :
    a ∈ jsSort le l ↔ a ∈ l := by
  induction l with
  | nil => simp [jsSort]
  | cons x xs ih => simp [jsSort, mem_jsSortInsert, ih]

theorem pairwise_jsSortInsert (le : α → α → Bool)
    (htot : ∀ a b, le a b = true ∨ le b a = true)
    (htrans : ∀ a b c, le a b = true → le b c = true → le a c = true)
    (x : α) (l : List α) (h : l.Pairwise (fun a b => le a b = true)) :
    (jsSortInsert le x l).Pairwise (fun a b => le a b = true) := by
  induction l with
  | nil => simp [jsSortInsert]
  | cons y ys ih =>
    rcases List.pairwise_cons.mp h with ⟨hy, hys⟩
    simp only [jsSortInsert]
    split
    · next hxy =>
      refine List.pairwise_cons.mpr ⟨?_, h⟩
      intro z hz
      rcases List.mem_cons.mp hz with rfl | hz
      · exact hxy
      · exact htrans x y z hxy (hy z hz)
    · next hxy =>
      have hyx : le y x = true := by
        rcases htot x y with h' | h'
        · exact absurd h' hxy
        · exact h'
      refine List.pairwise_cons.mpr ⟨?_, ih hys⟩
      intro z hz
      rcases (mem_jsSortInsert le x z ys).mp hz with rfl | hz
      · exact hyx
      · exact hy z hz

theorem pairwise_jsSort (le : α → α → Bool)
    (htot : ∀ a b, le a b = true ∨ le b a = true)
    (htrans : ∀ a b c, le a b = true → le b c = true → le a c = true)
    (l : List α) :
    (jsSort le l).Pairwise (fun a b => le a b = true) := by
  induction l with
  | nil => simp [jsSort]
  | cons x xs ih => exact pairwise_jsSortInsert le htot htrans x _ ih

theorem jsSort_head_le (le : α → α → Bool)
    (htot : ∀ a b, le a b = true ∨ le b a = true)
    (htrans : ∀ a b c, le a b = true → le b c = true → le a c = true)
    (l : List α) (h0 : α) (t : List α) (he : jsSort le l = h0 :: t)
    (x : α) (hx : x ∈ l) : le h0 x = true := by
  have hx' : x ∈ h0 :: t := by
    rw [← he]
    exact (mem_jsSort le x l).mpr hx
  rcases List.mem_cons.mp hx' with rfl | hx'
  · rcases htot x x with h | h <;> exact h
  · have hp := pairwise_jsSort le htot htrans l
    rw [he] at hp
    exact (List.pairwise_cons.mp hp).1 x hx'

theorem mkCand_item (word : String) (f : α → List String) (x : α) :
    (mkCand word f x).item = x := rfl

theorem findBestMatch_spec (word : String) (coll : List α) (f : α → List String) (c : α)
    (h : findBestMatch word coll f = some c) :
    word ≠ "" ∧ c ∈ coll ∧ qualifies word f c = true ∧
      ∀ x ∈ coll, qualifies word f x = true →
        candLe f (mkCand word f c) (mkCand word f x) = true := by
  unfold findBestMatch at h
  by_cases hw : word = ""
  · rw [if_pos hw] at h
    exact absurd h (by simp)
  · rw [if_neg hw] at h
    cases he : jsSort (candLe f) (candidatesFor word coll f) with
    | nil =>
      rw [he] at h
      exact absurd h (by simp)
    | cons c0 t =>
      rw [he] at h
      have hitem : c0.item = c := by
        simpa using h
      have hc0 : c0 ∈ candidatesFor word coll f := by
        have hmem : c0 ∈ jsSort (candLe f) (candidatesFor word coll f) := by
          rw [he]
          exact List.mem_cons_self _ _
        exact (mem_jsSort _ _ _).mp hmem
      obtain ⟨hmap, hne⟩ := List.mem_filter.mp hc0
      obtain ⟨x0, hx0, hx0eq⟩ := List.mem_map.mp hmap
      have hx0c : x0 = c := by
        rw [← hitem, ← hx0eq]
        rfl
      subst hx0c
      refine ⟨hw, hx0, ?_, ?_⟩
      · unfold qualifies
        rw [hx0eq]
        exact hne
      · intro x hx hq
        have hxmem : mkCand word f x ∈ candidatesFor word coll f := by
          refine List.mem_filter.mpr ⟨List.mem_map_of_mem _ hx, ?_⟩
          exact hq
        have := jsSort_head_le (candLe f) (candLe_total f) (candLe_trans f) _ c0 t he
          (mkCand word f x) hxmem
        rw [hx0eq]
        exact this

theorem findBestMatch_isSome (word : String) (coll : List α) (f : α → List String)
    (hw : word ≠ "") (x : α) (hx : x ∈ coll) (hq : qualifies word f x = true) :
    ∃ c, findBestMatch word coll f = some c := by
  unfold findBestMatch
  rw [if_neg hw]
  have hxmem : mkCand word f x ∈ candidatesFor word coll f :=
    List.mem_filter.mpr ⟨List.mem_map_of_mem _ hx, hq⟩
  have hmem : mkCand word f x ∈ jsSort (candLe f) (candidatesFor word coll f) :=
    (mem_jsSort _ _ _).mpr hxmem
  cases he : jsSort (candLe f) (candidatesFor word coll f) with
  | nil =>
    rw [he] at hmem
    exact absurd hmem (List.not_mem_nil _)
  | cons c0 t =>
    exact ⟨c0.item, rfl⟩

/-- C1: for every flag token and candidate list, `findBestMatch` ranks
qualifying candidates so that (1) a candidate with an exact normalized match
beats every candidate with only prefix matches, regardless of string lengths,
(2) among candidates tied on exactness the one whose shortest qualifying
matchable string is shortest wins, and (3) remaining ties are broken by
alphabetical order (modelled locale collation) of the candidate's primary
matchable string.  In particular, for candidates `["m", "medium"]` and search
term `"m"`, the exact candidate `"m"` is returned. -/
theorem claim_C1 :
    (∀ (α : Type) (word : String) (coll : List α) (f : α → List String) (c : α),
        findBestMatch word coll f = some c →
        ∀ x ∈ coll, qualifies word f x = true →
          ((hasExactFor word f x = true → hasExactFor word f c = true) ∧
           (hasExactFor word f c = hasExactFor word f x →
              shortestFor word f c ≤ shortestFor word f x) ∧
           (hasExactFor word f c = hasExactFor word f x →
            shortestFor word f c = shortestFor word f x →
              localeCompare (primaryFor f c) (primaryFor f x) ≤ 0))) ∧
    findBestMatch "-m" ["m", "medium"] (fun s => [s]) = some "m" := by
  constructor
  · intro α word coll f c h x hx hq
    obtain ⟨-, -, -, hmin⟩ := findBestMatch_spec word coll f c h
    have hle := hmin x hx hq
    rw [candLe_iff] at hle
    have hle' :
        ((if hasExactFor word f c then (0 : Nat) else 1) <
            (if hasExactFor word f x then (0 : Nat) else 1) ∨
          ((if hasExactFor word f c then (0 : Nat) else 1) =
              (if hasExactFor word f x then (0 : Nat) else 1) ∧
            (shortestFor word f c < shortestFor word f x ∨
              (shortestFor word f c = shortestFor word f x ∧
                localeCompare (primaryFor f c) (primaryFor f x) ≤ 0)))) := hle
    refine ⟨?_, ?_, ?_⟩
    · intro hxT
      cases hcE : hasExactFor word f c
      · rw [hcE, hxT] at hle'
        simp at hle'
      · rfl
    · intro heq
      rw [heq] at hle'
      rcases hle' with h | ⟨-, h | ⟨h, -⟩⟩
      · exact absurd h (Nat.lt_irrefl _)
      · omega
      · omega
    · intro heq hseq
      rw [heq] at hle'
      rcases hle' with h | ⟨-, h | ⟨-, h⟩⟩
      · exact absurd h (Nat.lt_irrefl _)
      · omega
      · exact h
  · decide

/-- Closed instance of C1 discharging its hypotheses: among `["m", "medium"]`
the token `"-m"` returns the exact candidate. -/
theorem claim_C1_witness : hasExactFor "-m" (fun s => [s]) "m" = true :=
  (claim_C1.1 String "-m" ["m", "medium"] (fun s => [s]) "m" claim_C1.2 "m"
    (by decide) (by decide)).1 (by decide)

/-- C2: for the input `"ln -u -h fix the login bug"`, with metadata containing
a user whose matchable strings include the alias `u` and the fixed priority
table, `parseInput` followed by `processParameters` assigns that user and
priority 2 (high), leaves team and project unset, and the rebuilt title is
exactly `"fix the login bug"` (the priorities pass scans last-to-first, so
`"-h"` is consumed as a priority before `"-u"` can be, and `"-u"` is then
consumed by the users pass). -/
theorem claim_C2 :
    (parseInput "ln -u -h fix the login bug").paramWords = ["-u", "-h"] ∧
    (processParameters (parseInput "ln -u -h fix the login bug").paramWords
        c2Metadata).assigneeId = some "user-1" ∧
    (processParameters (parseInput "ln -u -h fix the login bug").paramWords
        c2Metadata).priorityId = some 2 ∧
    (processParameters (parseInput "ln -u -h fix the login bug").paramWords
        c2Metadata).teamId = none ∧
    (processParameters (parseInput "ln -u -h fix the login bug").paramWords
        c2Metadata).projectId = none ∧
    buildTitle
      (processParameters (parseInput "ln -u -h fix the login bug").paramWords
        c2Metadata).unmatched
      (parseInput "ln -u -h fix the login bug").titleWords = "fix the login bug" := by
  decide

theorem splitWsRuns_cons_nonspace (c : Char) (cs t : List Char) (ts : List (List Char))
    (hsp : jsSpace c = false) (hr : splitWsRuns cs = t :: ts) :
    splitWsRuns (c :: cs) = (c :: t) :: ts := by
  simp [splitWsRuns, hsp, hr]

theorem splitWsRuns_space_nil (c : Char) (hsp : jsSpace c = true) :
    splitWsRuns [c] = [[], []] := by
  simp [splitWsRuns, hsp]

theorem splitWsRuns_space_space (c c2 : Char) (cs2 : List Char)
    (hsp : jsSpace c = true) (h2 : jsSpace c2 = true) :
    splitWsRuns (c :: c2 :: cs2) = splitWsRuns (c2 :: cs2) := by
  simp [splitWsRuns, hsp, h2]

theorem splitWsRuns_space_nonspace (c c2 : Char) (cs2 : List Char)
    (hsp : jsSpace c = true) (h2 : jsSpace c2 = false) :
    splitWsRuns (c :: c2 :: cs2) = [] :: splitWsRuns (c2 :: cs2) := by
  simp [splitWsRuns, hsp, h2]

theorem splitWsRuns_ne_nil : ∀ l : List Char, splitWsRuns l ≠ [] := by
  intro l
  induction l with
  | nil => simp [splitWsRuns]
  | cons c cs ih =>
    cases hsp : jsSpace c
    · cases hr : splitWsRuns cs with
      | nil => exact absurd hr ih
      | cons t ts => simp [splitWsRuns_cons_nonspace c cs t ts hsp hr]
    · cases cs with
      | nil => simp [splitWsRuns_space_nil c hsp]
      | cons c2 cs2 =>
        cases h2 : jsSpace c2
        · simp [splitWsRuns_space_nonspace c c2 cs2 hsp h2]
        · rw [splitWsRuns_space_space c c2 cs2 hsp h2]
          exact ih

theorem splitWsRuns_length_one_iff :
    ∀ l : List Char, (splitWsRuns l).length = 1 ↔ l.all (fun c => !jsSpace c) = true := by
  intro l
  induction l with
  | nil => simp [splitWsRuns]
  | cons c cs ih =>
    cases hsp : jsSpace c
    · cases hr : splitWsRuns cs with
      | nil => exact absurd hr (splitWsRuns_ne_nil cs)
      | cons t ts =>
        rw [splitWsRuns_cons_nonspace c cs t ts hsp hr]
        simp only [List.length_cons, List.all_cons, hsp, Bool.not_false, Bool.true_and]
        rw [← ih, hr]
        simp
    · have hall : (c :: cs).all (fun c => !jsSpace c) = false := by
        simp [List.all_cons, hsp]
      rw [hall]
      simp only [Bool.false_eq_true, iff_false]
      cases cs with
      | nil =>
        rw [splitWsRuns_space_nil c hsp]
        simp
      | cons c2 cs2 =>
        cases h2 : jsSpace c2
        · rw [splitWsRuns_space_nonspace c c2 cs2 hsp h2]
          intro hlen
          simp only [List.length_cons] at hlen
          exact splitWsRuns_ne_nil (c2 :: cs2) (List.length_eq_zero.mp (by omega))
        · rw [splitWsRuns_space_space c c2 cs2 hsp h2]
          intro hlen
          have hall2 := ih.mp hlen
          simp [List.all_cons, h2] at hall2

/-- C3 counterexample: for the whitespace-only title `" "`, `validateTitle`
returns the single-word message, not `"Please provide a title"` as the claim
states for whitespace-only titles. -/
theorem claim_C3_cex :
    validateTitle " " =
      ⟨false, some "Please provide a more descriptive title with multiple words"⟩ ∧
    (some "Please provide a more descriptive title with multiple words" : Option String) ≠
      some "Please provide a title" := by
  decide

/-- C3 (amended): `validateTitle` returns the message `"Please provide a
title"` exactly for the empty string; it returns the multiple-words message
exactly for non-empty titles that are whitespace-only or a single word (the
trimmed title contains no whitespace character — an empty trimmed title
included); it is valid otherwise. -/
theorem claim_C3 : ∀ title : String,
    (validateTitle title = ⟨false, some "Please provide a title"⟩ ↔ title = "") ∧
    (validateTitle title =
        ⟨false, some "Please provide a more descriptive title with multiple words"⟩ ↔
      (title ≠ "" ∧ (jsTrim title.data).all (fun c => !jsSpace c) = true)) ∧
    ((validateTitle title).valid = true ↔
      (title ≠ "" ∧ (jsTrim title.data).all (fun c => !jsSpace c) = false)) := by
  intro title
  unfold validateTitle
  by_cases ht : title = ""
  · simp [ht]
  · rw [if_neg ht]
    by_cases hw : (splitWsRuns (jsTrim title.data)).length = 1
    · rw [if_pos hw]
      have hall := (splitWsRuns_length_one_iff (jsTrim title.data)).mp hw
      simp [ht, hall]
    · rw [if_neg hw]
      have hall : (jsTrim title.data).all (fun c => !jsSpace c) = false := by
        cases h : (jsTrim title.data).all (fun c => !jsSpace c)
        · rfl
        · exact absurd ((splitWsRuns_length_one_iff _).mpr h) hw
      simp [ht, hall]

/-- C4 counterexample: with a previously persisted explicit team choice and a
run with no explicit choices, the written snapshot does not retain the prior
team choice — it is reset to null (the prior timestamp, however, survives). -/
theorem claim_C4_cex :
    (writeRunPrefs c4Prev {} 999).teamsChoice = none ∧
    c4Prev.teamsChoice = some "team-a" ∧
    (writeRunPrefs c4Prev {} 999).teamsChoice ≠ c4Prev.teamsChoice ∧
    (writeRunPrefs c4Prev {} 999).teamsChoiceTimestamp = some 111 := by
  decide

/-- C4 (amended): the run write (`main`'s `writePrefs` call over the previous
snapshot with all four choice fields overridden by the run's explicit
choices) stamps each specified truthy choice with the current time; every
unspecified choice field is written as null — the prior persisted value is
not retained — while its prior timestamp carried on the snapshot is retained
when it is truthy (non-zero). -/
theorem claim_C4 : ∀ (prev : Prefs) (e : ExplicitChoices) (now : Nat),
    (∀ t, e.teamId = some t → t ≠ "" →
        (writeRunPrefs prev e now).teamsChoice = some t ∧
        (writeRunPrefs prev e now).teamsChoiceTimestamp = some now) ∧
    (e.teamId = none →
        (writeRunPrefs prev e now).teamsChoice = none ∧
        ∀ k, prev.teamsChoiceTimestamp = some k → k ≠ 0 →
          (writeRunPrefs prev e now).teamsChoiceTimestamp = some k) ∧
    (∀ p, e.projectId = some p → p ≠ "" →
        (writeRunPrefs prev e now).projectsChoice = some p ∧
        (writeRunPrefs prev e now).projectsChoiceTimestamp = some now) ∧
    (e.projectId = none →
        (writeRunPrefs prev e now).projectsChoice = none ∧
        ∀ k, prev.projectsChoiceTimestamp = some k → k ≠ 0 →
          (writeRunPrefs prev e now).projectsChoiceTimestamp = some k) ∧
    (∀ u, e.assigneeId = some u → u ≠ "" →
        (writeRunPrefs prev e now).usersChoice = some u ∧
        (writeRunPrefs prev e now).usersChoiceTimestamp = some now) ∧
    (e.assigneeId = none →
        (writeRunPrefs prev e now).usersChoice = none ∧
        ∀ k, prev.usersChoiceTimestamp = some k → k ≠ 0 →
          (writeRunPrefs prev e now).usersChoiceTimestamp = some k) ∧
    (∀ p, e.priorityId = some p → p ≠ 0 →
        (writeRunPrefs prev e now).prioritiesChoice = some p ∧
        (writeRunPrefs prev e now).prioritiesChoiceTimestamp = some now) ∧
    (e.priorityId = none →
        (writeRunPrefs prev e now).prioritiesChoice = none ∧
        ∀ k, prev.prioritiesChoiceTimestamp = some k → k ≠ 0 →
          (writeRunPrefs prev e now).prioritiesChoiceTimestamp = some k) := by
  intro prev e now
  refine ⟨?_, ?_, ?_, ?_, ?_, ?_, ?_, ?_⟩
  · intro t h hne
    simp [writeRunPrefs, writePrefs, jsTruthyStr, orNullStr, h, hne]
  · intro h
    refine ⟨?_, ?_⟩
    · simp [writeRunPrefs, writePrefs, jsTruthyStr, orNullStr, h]
    · intro k hk hkne
      simp [writeRunPrefs, writePrefs, jsTruthyStr, jsTruthyNat, orNullNat, h, hk, hkne]
  · intro p h hne
    simp [writeRunPrefs, writePrefs, jsTruthyStr, orNullStr, h, hne]
  · intro h
    refine ⟨?_, ?_⟩
    · simp [writeRunPrefs, writePrefs, jsTruthyStr, orNullStr, h]
    · intro k hk hkne
      simp [writeRunPrefs, writePrefs, jsTruthyStr, jsTruthyNat, orNullNat, h, hk, hkne]
  · intro u h hne
    simp [writeRunPrefs, writePrefs, jsTruthyStr, orNullStr, h, hne]
  · intro h
    refine ⟨?_, ?_⟩
    · simp [writeRunPrefs, writePrefs, jsTruthyStr, orNullStr, h]
    · intro k hk hkne
      simp [writeRunPrefs, writePrefs, jsTruthyStr, jsTruthyNat, orNullNat, h, hk, hkne]
  · intro p h hne
    simp [writeRunPrefs, writePrefs, jsTruthyNat, orNullNat, h, hne]
  · intro h
    refine ⟨?_, ?_⟩
    · simp [writeRunPrefs, writePrefs, jsTruthyNat, orNullNat, h]
    · intro k hk hkne
      simp [writeRunPrefs, writePrefs, jsTruthyStr, jsTruthyNat, orNullNat, h, hk, hkne]

/-- Closed instance of C4: a specified team choice is stamped with the
current time, and with no explicit choices the prior (truthy) team timestamp
survives while the choice itself is written as null. -/
theorem claim_C4_witness :
    ((writeRunPrefs c4Prev { teamId := some "T" } 999).teamsChoice = some "T" ∧
      (writeRunPrefs c4Prev { teamId := some "T" } 999).teamsChoiceTimestamp = some 999) ∧
    ((writeRunPrefs c4Prev {} 999).teamsChoice = none ∧
      (writeRunPrefs c4Prev {} 999).teamsChoiceTimestamp = some 111) :=
  ⟨(claim_C4 c4Prev { teamId := some "T" } 999).1 "T" rfl (by decide),
   ⟨((claim_C4 c4Prev {} 999).2.1 rfl).1,
    ((claim_C4 c4Prev {} 999).2.1 rfl).2 111 rfl (by decide)⟩⟩

/-! ### Field-preservation lemmas for the default applier stages -/

theorem applyTeamProjectDefaults_assigneeId (m : Prefs) (r : ResolutionResult) :
    (applyTeamProjectDefaults m r).assigneeId = r.assigneeId := by
  unfold applyTeamProjectDefaults
  split <;> try split <;> try split
  all_goals rfl

theorem applyTeamProjectDefaults_priorityId (m : Prefs) (r : ResolutionResult) :
    (applyTeamProjectDefaults m r).priorityId = r.priorityId := by
  unfold applyTeamProjectDefaults
  split <;> try split <;> try split
  all_goals rfl

theorem applyTeamProjectDefaults_projectId_of_some (m : Prefs) (r : ResolutionResult)
    (p : String) (h : r.projectId = some p) :
    (applyTeamProjectDefaults m r).projectId = some p := by
  unfold applyTeamProjectDefaults
  split
  · next h1 h2 => rw [h] at h2; exact absurd h2 (by simp)
  · next pid h1 h2 =>
      split <;> try split
      all_goals exact h
  · next => exact h

theorem applyTeamProjectDefaults_teamId_of_some (m : Prefs) (r : ResolutionResult)
    (t : String) (h : r.teamId = some t) :
    (applyTeamProjectDefaults m r).teamId = some t := by
  unfold applyTeamProjectDefaults
  split
  · next h1 h2 => rw [h] at h1; exact absurd h1 (by simp)
  · next pid h1 h2 => rw [h] at h1; exact absurd h1 (by simp)
  · next => exact h

theorem applyMemberDefaultTeam_projectId (m : Prefs) (r : ResolutionResult) :
    (applyMemberDefaultTeam m r).projectId = r.projectId := by
  unfold applyMemberDefaultTeam
  split <;> rfl

theorem applyMemberDefaultTeam_assigneeId (m : Prefs) (r : ResolutionResult) :
    (applyMemberDefaultTeam m r).assigneeId = r.assigneeId := by
  unfold applyMemberDefaultTeam
  split <;> rfl

theorem applyMemberDefaultTeam_priorityId (m : Prefs) (r : ResolutionResult) :
    (applyMemberDefaultTeam m r).priorityId = r.priorityId := by
  unfold applyMemberDefaultTeam
  split <;> rfl

theorem applyMemberDefaultTeam_eq_of_team_truthy (m : Prefs) (r : ResolutionResult)
    (h : jsFalsyStr r.teamId = false) :
    applyMemberDefaultTeam m r = r := by
  unfold applyMemberDefaultTeam
  rw [if_neg]
  simp [h]

theorem applyMemberDefaultTeam_eq_of_project_truthy (m : Prefs) (r : ResolutionResult)
    (h : jsFalsyStr r.projectId = false) :
    applyMemberDefaultTeam m r = r := by
  unfold applyMemberDefaultTeam
  rw [if_neg]
  simp [h]

theorem applyAssigneeDefault_teamId (m : Prefs) (r : ResolutionResult) :
    (applyAssigneeDefault m r).teamId = r.teamId := by
  unfold applyAssigneeDefault
  split <;> rfl

theorem applyAssigneeDefault_projectId (m : Prefs) (r : ResolutionResult) :
    (applyAssigneeDefault m r).projectId = r.projectId := by
  unfold applyAssigneeDefault
  split <;> rfl

theorem applyAssigneeDefault_priorityId (m : Prefs) (r : ResolutionResult) :
    (applyAssigneeDefault m r).priorityId = r.priorityId := by
  unfold applyAssigneeDefault
  split <;> rfl

theorem applyAssigneeDefault_assigneeId_of_some (m : Prefs) (r : ResolutionResult)
    (a : String) (h : r.assigneeId = some a) :
    (applyAssigneeDefault m r).assigneeId = some a := by
  unfold applyAssigneeDefault
  split
  · next h1 => rw [h] at h1; exact absurd h1 (by simp)
  · next => exact h

theorem applyPriorityDefault_teamId (m : Prefs) (r : ResolutionResult) :
    (applyPriorityDefault m r).teamId = r.teamId := by
  unfold applyPriorityDefault
  split <;> rfl

theorem applyPriorityDefault_projectId (m : Prefs) (r : ResolutionResult) :
    (applyPriorityDefault m r).projectId = r.projectId := by
  unfold applyPriorityDefault
  split <;> rfl

theorem applyPriorityDefault_assigneeId (m : Prefs) (r : ResolutionResult) :
    (applyPriorityDefault m r).assigneeId = r.assigneeId := by
  unfold applyPriorityDefault
  split <;> rfl

theorem applyPriorityDefault_priorityId_of_some (m : Prefs) (r : ResolutionResult)
    (p : Nat) (h : r.priorityId = some p) :
    (applyPriorityDefault m r).priorityId = some p := by
  unfold applyPriorityDefault
  split
  · next h1 => rw [h] at h1; exact absurd h1 (by simp)
  · next => exact h

theorem lookupTeamName_ids (m : Prefs) (r : ResolutionResult) :
    (lookupTeamName m r).teamId = r.teamId ∧
    (lookupTeamName m r).projectId = r.projectId ∧
    (lookupTeamName m r).assigneeId = r.assigneeId ∧
    (lookupTeamName m r).priorityId = r.priorityId := by
  unfold lookupTeamName
  split
  · split <;> exact ⟨rfl, rfl, rfl, rfl⟩
  · exact ⟨rfl, rfl, rfl, rfl⟩

theorem lookupProjectName_ids (m : Prefs) (r : ResolutionResult) :
    (lookupProjectName m r).teamId = r.teamId ∧
    (lookupProjectName m r).projectId = r.projectId ∧
    (lookupProjectName m r).assigneeId = r.assigneeId ∧
    (lookupProjectName m r).priorityId = r.priorityId := by
  unfold lookupProjectName
  split
  · split <;> exact ⟨rfl, rfl, rfl, rfl⟩
  · exact ⟨rfl, rfl, rfl, rfl⟩

theorem lookupAssigneeName_ids (m : Prefs) (r : ResolutionResult) :
    (lookupAssigneeName m r).teamId = r.teamId ∧
    (lookupAssigneeName m r).projectId = r.projectId ∧
    (lookupAssigneeName m r).assigneeId = r.assigneeId ∧
    (lookupAssigneeName m r).priorityId = r.priorityId := by
  unfold lookupAssigneeName
  split
  · split <;> exact ⟨rfl, rfl, rfl, rfl⟩
  · exact ⟨rfl, rfl, rfl, rfl⟩

theorem lookupPriorityLabel_ids (r : ResolutionResult) :
    (lookupPriorityLabel r).teamId = r.teamId ∧
    (lookupPriorityLabel r).projectId = r.projectId ∧
    (lookupPriorityLabel r).assigneeId = r.assigneeId ∧
    (lookupPriorityLabel r).priorityId = r.priorityId := by
  unfold lookupPriorityLabel
  split
  · split <;> exact ⟨rfl, rfl, rfl, rfl⟩
  · exact ⟨rfl, rfl, rfl, rfl⟩

theorem applyTeamProjectDefaults_teamId_eq (m : Prefs) (r : ResolutionResult) (pid : String)
    (hT : r.teamId = none) (hP : r.projectId = some pid) :
    (applyTeamProjectDefaults m r).teamId =
      (match m.projects.find? (fun p => p.id == pid) with
       | some proj =>
         match proj.teams with
         | t :: _ => some t.id
         | [] => m.teamsChoice
       | none => m.teamsChoice) := by
  unfold applyTeamProjectDefaults
  split
  · next h1 h2 => rw [hP] at h2; exact absurd h2 (by simp)
  · next pid2 h1 h2 =>
    rw [hP] at h2
    injection h2 with h2e
    subst h2e
    cases hf : m.projects.find? (fun p => p.id == pid) with
    | some proj =>
      cases hteams : proj.teams with
      | cons t ts => simp [hteams]
      | nil => simp [hteams]
    | none => rfl
  · next h1 => rw [hT] at h1; exact absurd h1.symm (by simp)

/-- C5 counterexample: for a resolved project whose id is the empty string
(a falsy id) that has no owning team, with no persisted team choice, the
final team is the member-default team rather than the persisted team choice
the claim requires. -/
theorem claim_C5_cex :
    (applyDefaultPreferences { projectId := some "" } cexMetadata).teamId = some "T1" ∧
    cexMetadata.teamsChoice = none ∧
    (applyDefaultPreferences { projectId := some "" } cexMetadata).teamId ≠
      cexMetadata.teamsChoice := by
  decide

/-- C5 (amended): when the project field is resolved to a non-empty id and
the team field is unset, `applyDefaultPreferences` sets the team to the first
owning team of the metadata project with that id; if that project has no
owning team (or no such project exists in the metadata), the team falls back
to the persisted team choice.  (For a falsy empty-string project id the
member-default team can additionally overwrite a falsy derived team, as the
counterexample shows.) -/
theorem claim_C5 : ∀ (metadata : Prefs) (params : ResolutionResult) (pid : String),
    params.teamId = none → params.projectId = some pid → pid ≠ "" →
    (applyDefaultPreferences params metadata).teamId =
      (match metadata.projects.find? (fun p => p.id == pid) with
       | some proj =>
         match proj.teams with
         | t :: _ => some t.id
         | [] => metadata.teamsChoice
       | none => metadata.teamsChoice) := by
  intro metadata params pid hT hP hne
  have hr1p : (applyTeamProjectDefaults metadata params).projectId = some pid :=
    applyTeamProjectDefaults_projectId_of_some _ _ _ hP
  have hfal : jsFalsyStr (applyTeamProjectDefaults metadata params).projectId = false := by
    rw [hr1p]
    simp [jsFalsyStr, jsTruthyStr, hne]
  show (lookupPriorityLabel (lookupAssigneeName metadata (lookupProjectName metadata
      (lookupTeamName metadata (applyPriorityDefault metadata (applyAssigneeDefault metadata
        (applyMemberDefaultTeam metadata
          (applyTeamProjectDefaults metadata params)))))))).teamId = _
  rw [(lookupPriorityLabel_ids _).1, (lookupAssigneeName_ids _ _).1,
      (lookupProjectName_ids _ _).1, (lookupTeamName_ids _ _).1,
      applyPriorityDefault_teamId, applyAssigneeDefault_teamId,
      applyMemberDefaultTeam_eq_of_project_truthy _ _ hfal]
  exact applyTeamProjectDefaults_teamId_eq metadata params pid hT hP

/-- Closed instance of C5: a resolved project (non-empty id `"P1"`) that is
absent from the metadata projects list makes the team fall back to the
persisted team choice. -/
theorem claim_C5_witness :
    (applyDefaultPreferences { projectId := some "P1" }
        { teamsChoice := some "TC" }).teamId = some "TC" := by
  have h := claim_C5 { teamsChoice := some "TC" } { projectId := some "P1" } "P1"
    rfl rfl (by decide)
  simpa using h

/-- C6 counterexample: a resolution result whose team field was already
resolved to the (falsy) empty-string id is overwritten by the member-default
team, so a non-null field is changed. -/
theorem claim_C6_cex :
    (applyDefaultPreferences { teamId := some "" } cexMetadata).teamId = some "T1" ∧
    (applyDefaultPreferences { teamId := some "" } cexMetadata).teamId ≠ some "" := by
  decide

/-- C6 (amended): `applyDefaultPreferences` never changes a non-null
`projectId`, `assigneeId` or `priorityId`, and never changes a non-null
`teamId` whose value is a non-empty (truthy) string; only the falsy
empty-string team id can be overwritten (see the counterexample). -/
theorem claim_C6 : ∀ (params : ResolutionResult) (metadata : Prefs),
    (∀ p, params.projectId = some p →
        (applyDefaultPreferences params metadata).projectId = some p) ∧
    (∀ a, params.assigneeId = some a →
        (applyDefaultPreferences params metadata).assigneeId = some a) ∧
    (∀ pr, params.priorityId = some pr →
        (applyDefaultPreferences params metadata).priorityId = some pr) ∧
    (∀ t, params.teamId = some t → t ≠ "" →
        (applyDefaultPreferences params metadata).teamId = some t) := by
  intro params metadata
  refine ⟨?_, ?_, ?_, ?_⟩
  · intro p h
    show (lookupPriorityLabel (lookupAssigneeName metadata (lookupProjectName metadata
        (lookupTeamName metadata (applyPriorityDefault metadata (applyAssigneeDefault metadata
          (applyMemberDefaultTeam metadata
            (applyTeamProjectDefaults metadata params)))))))).projectId = some p
    rw [(lookupPriorityLabel_ids _).2.1, (lookupAssigneeName_ids _ _).2.1,
        (lookupProjectName_ids _ _).2.1, (lookupTeamName_ids _ _).2.1,
        applyPriorityDefault_projectId, applyAssigneeDefault_projectId,
        applyMemberDefaultTeam_projectId]
    exact applyTeamProjectDefaults_projectId_of_some _ _ _ h
  · intro a h
    show (lookupPriorityLabel (lookupAssigneeName metadata (lookupProjectName metadata
        (lookupTeamName metadata (applyPriorityDefault metadata (applyAssigneeDefault metadata
          (applyMemberDefaultTeam metadata
            (applyTeamProjectDefaults metadata params)))))))).assigneeId = some a
    rw [(lookupPriorityLabel_ids _).2.2.1, (lookupAssigneeName_ids _ _).2.2.1,
        (lookupProjectName_ids _ _).2.2.1, (lookupTeamName_ids _ _).2.2.1,
        applyPriorityDefault_assigneeId]
    refine applyAssigneeDefault_assigneeId_of_some _ _ _ ?_
    rw [applyMemberDefaultTeam_assigneeId, applyTeamProjectDefaults_assigneeId]
    exact h
  · intro pr h
    show (lookupPriorityLabel (lookupAssigneeName metadata (lookupProjectName metadata
        (lookupTeamName metadata (applyPriorityDefault metadata (applyAssigneeDefault metadata
          (applyMemberDefaultTeam metadata
            (applyTeamProjectDefaults metadata params)))))))).priorityId = some pr
    rw [(lookupPriorityLabel_ids _).2.2.2, (lookupAssigneeName_ids _ _).2.2.2,
        (lookupProjectName_ids _ _).2.2.2, (lookupTeamName_ids _ _).2.2.2]
    refine applyPriorityDefault_priorityId_of_some _ _ _ ?_
    rw [applyAssigneeDefault_priorityId, applyMemberDefaultTeam_priorityId,
        applyTeamProjectDefaults_priorityId]
    exact h
  · intro t h hne
    have e1 : (applyTeamProjectDefaults metadata params).teamId = some t :=
      applyTeamProjectDefaults_teamId_of_some _ _ _ h
    have hfal : jsFalsyStr (applyTeamProjectDefaults metadata params).teamId = false := by
      rw [e1]
      simp [jsFalsyStr, jsTruthyStr, hne]
    show (lookupPriorityLabel (lookupAssigneeName metadata (lookupProjectName metadata
        (lookupTeamName metadata (applyPriorityDefault metadata (applyAssigneeDefault metadata
          (applyMemberDefaultTeam metadata
            (applyTeamProjectDefaults metadata params)))))))).teamId = some t
    rw [(lookupPriorityLabel_ids _).1, (lookupAssigneeName_ids _ _).1,
        (lookupProjectName_ids _ _).1, (lookupTeamName_ids _ _).1,
        applyPriorityDefault_teamId, applyAssigneeDefault_teamId,
        applyMemberDefaultTeam_eq_of_team_truthy _ _ hfal]
    exact e1

/-- Closed instance of C6: explicitly resolved fields — including the falsy
priority 0 and a truthy team id — survive the default applier unchanged. -/
theorem claim_C6_witness :
    (applyDefaultPreferences
        { teamId := some "T9", projectId := some "P9", assigneeId := some "U9",
          priorityId := some 0 } cexMetadata).projectId = some "P9" ∧
    (applyDefaultPreferences
        { teamId := some "T9", projectId := some "P9", assigneeId := some "U9",
          priorityId := some 0 } cexMetadata).assigneeId = some "U9" ∧
    (applyDefaultPreferences
        { teamId := some "T9", projectId := some "P9", assigneeId := some "U9",
          priorityId := some 0 } cexMetadata).priorityId = some 0 ∧
    (applyDefaultPreferences
        { teamId := some "T9", projectId := some "P9", assigneeId := some "U9",
          priorityId := some 0 } cexMetadata).teamId = some "T9" :=
  ⟨(claim_C6 _ cexMetadata).1 "P9" rfl,
   (claim_C6 _ cexMetadata).2.1 "U9" rfl,
   (claim_C6 _ cexMetadata).2.2.1 0 rfl,
   (claim_C6 _ cexMetadata).2.2.2 "T9" rfl (by decide)⟩

/-- C7: `readPrefs` never propagates a failure: a missing file or I/O error
(`readError`), an empty or otherwise unparseable file (`parseError`), and a
parse producing a falsy value all return the empty preference set. -/
theorem claim_C7 :
    readPrefs PrefsReadOutcome.readError = emptyPrefs ∧
    (∀ contents, readPrefs (PrefsReadOutcome.parseError contents) = emptyPrefs) ∧
    readPrefs PrefsReadOutcome.parsedFalsy = emptyPrefs ∧
    (∀ o, readPrefs o = emptyPrefs ∨ ∃ p, o = PrefsReadOutcome.parsedObject p ∧ readPrefs o = p) := by
  refine ⟨rfl, fun _ => rfl, rfl, ?_⟩
  intro o
  cases o with
  | parsedObject p => exact Or.inr ⟨p, rfl, rfl⟩
  | readError => exact Or.inl rfl
  | parseError c => exact Or.inl rfl
  | parsedFalsy => exact Or.inl rfl

/-- C8: the cache is treated as stale exactly when one of the three entity
lists is empty (absent lists are identified with empty); a stale read
synchronously fetches, persists the fetched result via `writePrefs` before
returning, and returns the fetched result; a fresh read returns the cached
snapshot, performs no synchronous fetch or persist, only starts the
non-awaited background refresh, and its returned value does not depend on
what any fetch would produce. -/
theorem claim_C8 : ∀ (cached fetched : Prefs) (now : Nat),
    (isStaleMetadata cached = true ↔
      (cached.teams = [] ∨ cached.projects = [] ∨ cached.users = [])) ∧
    (isStaleMetadata cached = true →
      getUnifiedMetadata cached fetched now =
        (fetched, [UnifiedEffect.fetchSync,
                   UnifiedEffect.persist (writePrefs fetched now)])) ∧
    (isStaleMetadata cached = false →
      (getUnifiedMetadata cached fetched now).1 = cached ∧
      (getUnifiedMetadata cached fetched now).2 = [UnifiedEffect.backgroundRefresh] ∧
      ∀ other : Prefs, (getUnifiedMetadata cached other now).1 = cached) := by
  intro cached fetched now
  refine ⟨?_, ?_, ?_⟩
  · simp only [isStaleMetadata, Bool.or_eq_true, List.isEmpty_iff]
    tauto
  · intro h
    simp [getUnifiedMetadata, h]
  · intro h
    refine ⟨?_, ?_, ?_⟩
    · simp [getUnifiedMetadata, h]
    · simp [getUnifiedMetadata, h]
    · intro other
      simp [getUnifiedMetadata, h]

/-- Closed instance of C8: the all-empty snapshot is stale and triggers
fetch-and-persist; a populated snapshot is fresh and is returned unchanged
whatever a fetch would have produced. -/
theorem claim_C8_witness :
    getUnifiedMetadata emptyPrefs freshPrefs 3 =
      (freshPrefs, [UnifiedEffect.fetchSync,
                    UnifiedEffect.persist (writePrefs freshPrefs 3)]) ∧
    (getUnifiedMetadata freshPrefs emptyPrefs 3).1 = freshPrefs ∧
    (getUnifiedMetadata freshPrefs cexMetadata 3).1 = freshPrefs :=
  ⟨(claim_C8 emptyPrefs freshPrefs 3).2.1 (by decide),
   ((claim_C8 freshPrefs emptyPrefs 3).2.2 (by decide)).1,
   ((claim_C8 freshPrefs emptyPrefs 3).2.2 (by decide)).2.2 cexMetadata⟩

/-- C10 counterexample: with `prioritiesChoice = 0` and a prior timestamp of
`0`, the written `prioritiesChoiceTimestamp` is null, so the prior timestamp
is not kept as the claim states unconditionally. -/
theorem claim_C10_cex :
    (writePrefs { prioritiesChoice := some 0, prioritiesChoiceTimestamp := some 0 } 55
        ).prioritiesChoiceTimestamp = none ∧
    ({ prioritiesChoice := some 0, prioritiesChoiceTimestamp := some 0 : Prefs }
        ).prioritiesChoiceTimestamp = some 0 ∧
    (writePrefs { prioritiesChoice := some 0, prioritiesChoiceTimestamp := some 0 } 55
        ).prioritiesChoiceTimestamp ≠
      ({ prioritiesChoice := some 0, prioritiesChoiceTimestamp := some 0 : Prefs }
        ).prioritiesChoiceTimestamp := by
  decide

/-- C10 (amended): `writePrefs` treats the falsy priority choice `0` as
unset: the written `prioritiesChoice` is null and its timestamp is not
refreshed — the prior timestamp is kept when it is truthy (non-zero), while a
falsy prior timestamp (`0` or absent) is written as null. -/
theorem claim_C10 : ∀ (prefs : Prefs) (now : Nat),
    prefs.prioritiesChoice = some 0 →
    (writePrefs prefs now).prioritiesChoice = none ∧
    (∀ k, prefs.prioritiesChoiceTimestamp = some k → k ≠ 0 →
      (writePrefs prefs now).prioritiesChoiceTimestamp = some k) ∧
    ((prefs.prioritiesChoiceTimestamp = some 0 ∨ prefs.prioritiesChoiceTimestamp = none) →
      (writePrefs prefs now).prioritiesChoiceTimestamp = none) := by
  intro prefs now h
  refine ⟨?_, ?_, ?_⟩
  · simp [writePrefs, orNullNat, jsTruthyNat, h]
  · intro k hk hkne
    simp [writePrefs, orNullNat, jsTruthyNat, h, hk, hkne]
  · rintro (hk | hk) <;> simp [writePrefs, orNullNat, jsTruthyNat, h, hk]

/-- Closed instance of C10: priority 0 with a truthy prior timestamp is
dropped while the timestamp survives; with prior timestamp 0 both are null. -/
theorem claim_C10_witness :
    (writePrefs { prioritiesChoice := some 0, prioritiesChoiceTimestamp := some 7 } 55
        ).prioritiesChoice = none ∧
    (writePrefs { prioritiesChoice := some 0, prioritiesChoiceTimestamp := some 7 } 55
        ).prioritiesChoiceTimestamp = some 7 ∧
    (writePrefs { prioritiesChoice := some 0 } 55).prioritiesChoiceTimestamp = none :=
  ⟨(claim_C10 { prioritiesChoice := some 0, prioritiesChoiceTimestamp := some 7 } 55 rfl).1,
   (claim_C10 { prioritiesChoice := some 0, prioritiesChoiceTimestamp := some 7 } 55 rfl).2.1
     7 rfl (by decide),
   (claim_C10 { prioritiesChoice := some 0 } 55 rfl).2.2 (Or.inr rfl)⟩

theorem any_map_own (g : σ → τ) (p : τ → Bool) (l : List σ) :
    (l.map g).any p = l.any (fun a => p (g a)) := by
  induction l with
  | nil => rfl
  | cons a as ih => simp [List.map_cons, List.any_cons, ih]

theorem not_isEmpty_filter_eq_any (p : σ → Bool) (l : List σ) :
    (!(l.filter p).isEmpty) = l.any p := by
  induction l with
  | nil => rfl
  | cons a as ih => cases hp : p a <;> simp [List.filter_cons, hp, List.any_cons, ih]

theorem mkCand_of_empty_search (word : String) (f : α → List String) (x : α)
    (hsan : sanitise (substringFrom1 word) = "") :
    qualifies word f x = hasTruthyStr f x ∧
    hasExactFor word f x = hasEmptySan f x ∧
    shortestFor word f x = shortestLenAll f x := by
  have hsandata : sanitiseList (substringFrom1 word).data = [] := by
    have := congrArg String.data hsan
    simpa [sanitise] using this
  have hfuzzy : ∀ s : String, fuzzyMatch s (substringFrom1 word) = true := by
    intro s
    unfold fuzzyMatch
    rw [hsandata]
    cases sanitiseList s.data <;> rfl
  have hfilter :
      ∀ ms : List MatchInfo,
        (∀ m ∈ ms, m.isFuzzy = true) →
        ms.filter (fun m => m.isExact || m.isFuzzy) = ms := by
    intro ms hms
    induction ms with
    | nil => rfl
    | cons m rest ih =>
      rw [List.filter_cons, if_pos (by rw [hms m (List.mem_cons_self m rest)]; simp),
        ih (fun m' hm' => hms m' (List.mem_cons_of_mem m hm'))]
  have hmsfuzzy :
      ∀ m ∈ ((f x).filter (fun s => !(s == ""))).map (mkMatchInfo (substringFrom1 word)),
        m.isFuzzy = true := by
    intro m hm
    obtain ⟨s, hs, rfl⟩ := List.mem_map.mp hm
    exact hfuzzy s
  have hqf := hfilter _ hmsfuzzy
  refine ⟨?_, ?_, ?_⟩
  · unfold qualifies
    have hql : (mkCand word f x).matchList =
        ((f x).filter (fun s => !(s == ""))).map (mkMatchInfo (substringFrom1 word)) := hqf
    rw [hql]
    unfold hasTruthyStr
    rw [← not_isEmpty_filter_eq_any (fun s => !(s == "")) (f x)]
    cases (f x).filter (fun s => !(s == "")) <;> rfl
  · show (((f x).filter (fun s => !(s == ""))).map
        (mkMatchInfo (substringFrom1 word))).any (·.isExact) = hasEmptySan f x
    rw [any_map_own]
    unfold hasEmptySan
    congr 1
    funext s
    show (sanitise s == sanitise (substringFrom1 word)) = (sanitise s == "")
    rw [hsan]
  · show minLenD (((((f x).filter (fun s => !(s == ""))).map
        (mkMatchInfo (substringFrom1 word))).filter
          (fun m => m.isExact || m.isFuzzy)).map (fun m => m.original.data.length))
      = shortestLenAll f x
    rw [hqf, List.map_map]
    rfl

theorem candLe_ranking (word : String) (f : α → List String) (c x : α)
    (hle : candLe f (mkCand word f c) (mkCand word f x) = true) :
    (hasExactFor word f x = true → hasExactFor word f c = true) ∧
    (hasExactFor word f c = hasExactFor word f x →
      shortestFor word f c ≤ shortestFor word f x) ∧
    (hasExactFor word f c = hasExactFor word f x →
      shortestFor word f c = shortestFor word f x →
      localeCompare (primaryFor f c) (primaryFor f x) ≤ 0) := by
  rw [candLe_iff] at hle
  have hle' :
      ((if hasExactFor word f c then (0 : Nat) else 1) <
          (if hasExactFor word f x then (0 : Nat) else 1) ∨
        ((if hasExactFor word f c then (0 : Nat) else 1) =
            (if hasExactFor word f x then (0 : Nat) else 1) ∧
          (shortestFor word f c < shortestFor word f x ∨
            (shortestFor word f c = shortestFor word f x ∧
              localeCompare (primaryFor f c) (primaryFor f x) ≤ 0)))) := hle
  refine ⟨?_, ?_, ?_⟩
  · intro hxT
    cases hcE : hasExactFor word f c
    · rw [hcE, hxT] at hle'
      simp at hle'
    · rfl
  · intro heq
    rw [heq] at hle'
    rcases hle' with h | ⟨-, h | ⟨h, -⟩⟩
    · exact absurd h (Nat.lt_irrefl _)
    · omega
    · omega
  · intro heq hseq
    rw [heq] at hle'
    rcases hle' with h | ⟨-, h | ⟨-, h⟩⟩
    · exact absurd h (Nat.lt_irrefl _)
    · omega
    · exact h

/-- C9 counterexample: for the empty-normalizing token `"--"` and candidates
`["a", "__"]`, the claim's rule (shortest matchable string, alphabetical on
ties) predicts `"a"`, but `"__"` sanitises to the empty string, counts as an
exact match, and wins. -/
theorem claim_C9_cex :
    findBestMatch "--" ["a", "__"] (fun s => [s]) = some "__" ∧
    findBestMatch "--" ["a", "__"] (fun s => [s]) ≠ some "a" := by
  decide

/-- C9 (amended): for every token whose characters after the leading `-`
sanitise to the empty string and every candidate list in which some candidate
has a truthy (non-empty) matchable string, `findBestMatch` returns a
candidate (every candidate's sanitised matchable string starts with the empty
search term); the returned candidate is ranked by: candidates having a
matchable string that itself sanitises to empty (exact matches) first, then
shortest truthy matchable string, then alphabetical (modelled locale) order
of the primary matchable string — so such a token is silently consumed. -/
theorem claim_C9 : ∀ (α : Type) (word : String) (coll : List α) (f : α → List String),
    word ≠ "" → sanitise (substringFrom1 word) = "" →
    (∃ x ∈ coll, hasTruthyStr f x = true) →
    ∃ c, findBestMatch word coll f = some c ∧ c ∈ coll ∧ hasTruthyStr f c = true ∧
      ∀ x ∈ coll, hasTruthyStr f x = true →
        ((hasEmptySan f x = true → hasEmptySan f c = true) ∧
         (hasEmptySan f c = hasEmptySan f x →
            shortestLenAll f c ≤ shortestLenAll f x) ∧
         (hasEmptySan f c = hasEmptySan f x →
          shortestLenAll f c = shortestLenAll f x →
            localeCompare (primaryFor f c) (primaryFor f x) ≤ 0)) := by
  intro α word coll f hw hsan hex
  obtain ⟨x0, hx0, hx0t⟩ := hex
  obtain ⟨c, hc⟩ := findBestMatch_isSome word coll f hw x0 hx0
    (by rw [(mkCand_of_empty_search word f x0 hsan).1]; exact hx0t)
  obtain ⟨-, hcmem, hcq, hmin⟩ := findBestMatch_spec word coll f c hc
  obtain ⟨hbrC1, hbrC2, hbrC3⟩ := mkCand_of_empty_search word f c hsan
  refine ⟨c, hc, hcmem, by rw [← hbrC1]; exact hcq, ?_⟩
  intro x hx hxt
  obtain ⟨hbrX1, hbrX2, hbrX3⟩ := mkCand_of_empty_search word f x hsan
  have hle := hmin x hx (by rw [hbrX1]; exact hxt)
  have hrank := candLe_ranking word f c x hle
  refine ⟨?_, ?_, ?_⟩
  · intro h
    rw [← hbrC2]
    exact hrank.1 (by rw [hbrX2]; exact h)
  · intro h
    rw [← hbrC3, ← hbrX3]
    exact hrank.2.1 (by rw [hbrC2, hbrX2]; exact h)
  · intro h hs
    rw [← hbrC3, ← hbrX3] at hs
    have := hrank.2.2 (by rw [hbrC2, hbrX2]; exact h) hs
    exact this

/-- Closed instance of C9: the token `"--"` over candidates with no
empty-sanitising strings returns the shortest candidate `"c"`. -/
theorem claim_C9_witness :
    ∃ c, findBestMatch "--" ["bb", "c"] (fun s => [s]) = some c ∧ c ∈ ["bb", "c"] ∧
      hasTruthyStr (fun s => [s]) c = true ∧
      ∀ x ∈ ["bb", "c"], hasTruthyStr (fun s => [s]) x = true →
        ((hasEmptySan (fun s => [s]) x = true → hasEmptySan (fun s => [s]) c = true) ∧
         (hasEmptySan (fun s => [s]) c = hasEmptySan (fun s => [s]) x →
            shortestLenAll (fun s => [s]) c ≤ shortestLenAll (fun s => [s]) x) ∧
         (hasEmptySan (fun s => [s]) c = hasEmptySan (fun s => [s]) x →
          shortestLenAll (fun s => [s]) c = shortestLenAll (fun s => [s]) x →
            localeCompare (primaryFor (fun s => [s]) c)
              (primaryFor (fun s => [s]) x) ≤ 0)) :=
  claim_C9 String "--" ["bb", "c"] (fun s => [s]) (by decide) (by decide)
    ⟨"c", by decide, by decide⟩
